import Mathlib

/-!
Verification development for the hidez message-visibility index.

Shallow embedding of the repository's core:
  * `worker.js`        — `MessageIndex` (hidden/visible/system partition),
                         `buildMessageIndex`, `processMessageRange`, worker protocol.
  * `messageindex.js`  — `MessageIndexManager` (facade, sync fallback, pending
                         operation table, timeouts, worker error handling).
  * `index.js` (part)  — the caller `hideChatMessageRange` with its range
                         normalization.

JavaScript objects are modelled as Lean structures, JS `Set` as `Finset`,
JS `Map` as an insertion-ordered association list with overwrite-on-set
semantics (`jsMapSet`).  The wall-clock `lastUpdate` timestamp field
(write-only in the source, `Date.now()`) is not modelled.  Promises are
modelled by recording each settled outcome (resolved value shape or
rejection) in the manager state; real time is modelled by an abstract
timeout event.
-/

/-- A JavaScript message identifier: the source uses numbers or strings.
Needed because `message.id || position` tests JS truthiness. -/
inductive JsId where
  | num (n : Int)
  | str (s : String)
deriving DecidableEq, Repr

/-- JS truthiness of an identifier value: `0` and the empty string are falsy. -/
def truthyId : JsId → Bool
  | .num n => n != 0
  | .str s => !s.isEmpty

/-- A chat message as consumed by the core: optional `id` field and the
`is_system` visibility flag. -/
structure Message where
  id : Option JsId := none
  is_system : Bool := false
deriving DecidableEq, Repr

/-- `message.id || position` (worker.js line 20, messageindex.js lines 167 and
193): the id is kept exactly when present and truthy, otherwise the position
is used. -/
def derivedId (m : Message) (pos : Int) : JsId :=
  match m.id with
  | some v => if truthyId v then v else .num pos
  | none => .num pos

/-- JS `Map.set` on an insertion-ordered association list: overwrite in place
if the key exists, else append. -/
def jsMapSet {β : Type} (l : List (JsId × β)) (k : JsId) (v : β) : List (JsId × β) :=
  if l.any (fun p => p.1 = k) then
    l.map (fun p => if p.1 = k then (k, v) else p)
  else
    l ++ [(k, v)]

/-- The index structure (`MessageIndex` in worker.js lines 7-14, and the object
literal in messageindex.js lines 158-164).  `lastUpdate` is omitted (wall
clock, write-only). -/
structure Index where
  hidden : Finset JsId
  visible : Finset JsId
  systemMessages : Finset JsId
  messagePositions : List (JsId × Nat)
deriving DecidableEq

/-- The freshly constructed empty index. -/
def emptyIndex : Index := ⟨∅, ∅, ∅, []⟩

/-- `MessageIndex.addMessage` (worker.js lines 19-29); identical to the loop
body of `buildIndexSync` (messageindex.js lines 166-176). -/
def addMessage (idx : Index) (m : Message) (pos : Nat) : Index :=
  let mid := derivedId m pos
  let idx' := { idx with messagePositions := jsMapSet idx.messagePositions mid pos }
  if m.is_system then
    { idx' with hidden := insert mid idx'.hidden,
                systemMessages := insert mid idx'.systemMessages }
  else
    { idx' with visible := insert mid idx'.visible }

/-- The `messages.forEach((msg, pos) => addMessage ...)` iteration, position
threaded explicitly. -/
def buildFrom (idx : Index) (pos : Nat) : List Message → Index
  | [] => idx
  | m :: rest => buildFrom (addMessage idx m pos) (pos + 1) rest

/-- `buildMessageIndex` (worker.js lines 59-67); `buildIndexSync`
(messageindex.js lines 157-180) constructs the identical structure. -/
def buildMessageIndex (messages : List Message) : Index :=
  buildFrom emptyIndex 0 messages

/-- `MessageIndex.updateMessageState` (worker.js lines 34-43); identical to the
inline index update in `processRangeSync` (messageindex.js lines 204-211).
The worker version also bumps `lastUpdate`, which is not modelled. -/
def updateMessageState (idx : Index) (mid : JsId) (isHidden : Bool) : Index :=
  if isHidden then
    { idx with visible := idx.visible.erase mid, hidden := insert mid idx.hidden }
  else
    { idx with hidden := idx.hidden.erase mid, visible := insert mid idx.visible }

/-- `messages[i]` under a JS integer subscript: `undefined` (here `none`) when
out of bounds.  The `if (!message) continue;` guard skips exactly these. -/
def getMsg (messages : List Message) (i : Int) : Option Message :=
  if i < 0 then none else messages.get? i.toNat

/-- One entry of the `updates` map: `{ position, isHidden }`. -/
structure Update where
  position : Int
  isHidden : Bool
deriving DecidableEq, Repr

/-- The body of the range scan loop, shared verbatim between
`processMessageRange` (worker.js lines 77-94, via `getMessageState` /
`updateMessageState`) and `processRangeSync` (messageindex.js lines 189-213):
skip a missing message; select by `unhide ? hidden.has : visible.has`; record
`{position, isHidden: !unhide}` and flip set membership. -/
def scanStep (messages : List Message) (unhide : Bool)
    (st : Index × List (JsId × Update)) (i : Int) : Index × List (JsId × Update) :=
  match getMsg messages i with
  | none => st
  | some m =>
    let mid := derivedId m i
    let shouldUpdate := if unhide then mid ∈ st.1.hidden else mid ∈ st.1.visible
    if shouldUpdate then
      (updateMessageState st.1 mid (!unhide), jsMapSet st.2 mid ⟨i, !unhide⟩)
    else
      st

/-- Folding the scan body over a list of positions. -/
def scanList (messages : List Message) (unhide : Bool)
    (ps : List Int) (st : Index × List (JsId × Update)) : Index × List (JsId × Update) :=
  ps.foldl (scanStep messages unhide) st

/-- The positions visited by `for (let i = start; i <= end; i++)`. -/
def posList (s e : Int) : List Int :=
  (List.range (e + 1 - s).toNat).map (fun k => s + (k : Int))

/-- The positions visited by the worker's chunked double loop
(`for (i = start; i <= end; i += batchSize)` with inner
`for (j = i; j <= Math.min(i + batchSize - 1, end); j++)`,
worker.js lines 74-77). -/
def chunkPositions (s e : Int) (batch : Nat) : List Int :=
  ((List.range (((e + 1 - s).toNat + (batch - 1)) / batch)).map
    (fun c => posList (s + (batch : Int) * c)
      (min (s + (batch : Int) * c + ((batch : Int) - 1)) e))).flatten

/-- The `{ updates }` result object of a range operation. -/
structure RangeResult where
  updates : List (JsId × Update)
deriving DecidableEq

/-- The `{ result: { updates }, index }` object returned by
`processRangeSync` (messageindex.js lines 215-218). -/
structure RangeSyncRet where
  result : RangeResult
  index : Index
deriving DecidableEq

/-- `processMessageRange` (worker.js lines 70-101): chunked scan over the
range, returning `{ updates, index }` as the pair (updates, index). -/
def processMessageRange (messages : List Message) (idx : Index)
    (s e : Int) (unhide : Bool) : Index × List (JsId × Update) :=
  scanList messages unhide (chunkPositions s e 50) (idx, [])

/-- The distinguishable error values the manager can reject a pending promise
with: `new Error('操作超时')` (timeout), the worker `onerror` event object
(channel error), `new Error(error)` for a per-operation error string posted by
the worker, and `new Error('未知的Worker操作: ...')`. -/
inductive JsErr where
  | timeoutErr
  | channelErr
  | fromWorker (msg : String)
  | unknownAction
deriving DecidableEq

/-- The JS shape of a value a manager promise resolves with.  The four code
paths produce four different shapes:
  * `buildSyncRet`  — sync fallback `buildIndexSync` returns `{ index }`;
  * `rangeSyncRet`  — sync fallback `processRangeSync` returns
                      `{ result: { updates }, index }`;
  * `indexDirect`   — worker path `indexBuilt` resolves `this.index`
                      (`data.index`, possibly `undefined`);
  * `rangeField`    — worker path `rangeProcessed` resolves `data.result`,
                      a field the worker never posts, hence possibly
                      `undefined` (`none`). -/
inductive ResolvedShape where
  | buildSyncRet (index : Index)
  | rangeSyncRet (r : RangeSyncRet)
  | indexDirect (i : Option Index)
  | rangeField (v : Option RangeResult)
deriving DecidableEq

/-- The settled outcome of one pending operation's promise. -/
inductive MOutcome where
  | resolved (s : ResolvedShape)
  | rejected (e : JsErr)
deriving DecidableEq

/-- Actions of the manager/worker protocol (`action` strings in the source). -/
inductive MAction where
  | buildIndex
  | processRange
  | other
deriving DecidableEq

/-- Reply actions posted by the worker (`indexBuilt`, `rangeProcessed`, or an
unrecognized string hitting the manager's `default` branch). -/
inductive ReplyAction where
  | indexBuilt
  | rangeProcessed
  | unknown
deriving DecidableEq

/-- A worker reply message as read by the manager's `onmessage`
(messageindex.js lines 38-66): `action`, optional `error`, and the fields of
`data` the two sides mention (`data.index`, `data.result`, `data.updates`).
A field absent from the posted object is `none` (JS `undefined`). -/
structure WorkerReply where
  action : ReplyAction
  error : Option String
  index : Option Index
  result : Option RangeResult
  updates : Option (List (JsId × Update))
deriving DecidableEq

/-- The `data` payload of an outbound request
(`{ messages, start, end, unhide }`); `stop` models the JS field `end`
(a Lean keyword). -/
structure ReqData where
  messages : List Message := []
  start : Int := 0
  stop : Int := 0
  unhide : Bool := false
deriving DecidableEq

/-- `MessageIndexManager` state: `worker` present or `null`, current `index`
snapshot, the memoized `indexPromise` (as a flag), the pending-operation table
(list of correlation ids, most recent first), the `operationId` counter, and a
log of settled promise outcomes (most recent first) standing in for the
resolve/reject continuations. -/
structure MState where
  worker : Bool := true
  index : Option Index := none
  indexPromise : Bool := false
  pending : List Nat := []
  opCounter : Nat := 0
  outcomes : List (Nat × MOutcome) := []
deriving DecidableEq

/-- The manager state right after the constructor when the worker initialized. -/
def initialWorkerState : MState := {}

/-- The manager state right after the constructor when `new Worker` threw and
the manager degraded to `worker = null` (messageindex.js lines 25-29). -/
def initialSyncState : MState := { worker := false }

/-- `buildIndexSync` (messageindex.js lines 157-180): builds the index,
assigns `this.index`, and returns `{ index }`. -/
def buildIndexSyncM (st : MState) (messages : List Message) : Index × MState :=
  let idx := buildMessageIndex messages
  (idx, { st with index := some idx })

/-- `processRangeSync` (messageindex.js lines 185-219): scan
`for (i = start; i <= end; i++)` against `this.index` (building it first if
absent — `buildIndexSync` also assigns `this.index`, and the in-place `Set`
mutations alias `this.index`, so the final snapshot is the scanned index). -/
def processRangeSyncM (st : MState) (messages : List Message)
    (s e : Int) (unhide : Bool) : RangeSyncRet × MState :=
  let idx0 := st.index.getD (buildMessageIndex messages)
  let scanned := scanList messages unhide (posList s e) (idx0, [])
  (⟨⟨scanned.2⟩, scanned.1⟩, { st with index := some scanned.1 })

/-- `processSynchronously` (messageindex.js lines 119-128); the unknown-action
branch throws, surfacing as a rejected promise from the async `sendToWorker`. -/
def processSynchronouslyM (st : MState) (a : MAction) (d : ReqData) : MOutcome × MState :=
  match a with
  | .buildIndex =>
    let (idx, st') := buildIndexSyncM st d.messages
    (.resolved (.buildSyncRet idx), st')
  | .processRange =>
    let (r, st') := processRangeSyncM st d.messages d.start d.stop d.unhide
    (.resolved (.rangeSyncRet r), st')
  | .other => (.rejected .unknownAction, st)

/-- `sendToWorker` (messageindex.js lines 89-114): with no worker, run the
sync fallback and return its (immediately settled) outcome; with a worker,
allocate `++this.operationId`, register the pending entry, and post the
message (the reply arrives later as an event), settling nothing yet. -/
def sendToWorkerM (st : MState) (a : MAction) (d : ReqData) : Option MOutcome × MState :=
  if st.worker then
    let opId := st.opCounter + 1
    (none, { st with opCounter := opId, pending := opId :: st.pending })
  else
    let (o, st') := processSynchronouslyM st a d
    (some o, st')

/-- The manager's `worker.onmessage` handler (messageindex.js lines 38-66):
look up the pending entry (return unchanged if absent), delete it, then
reject on `error`, or dispatch on `action`: `indexBuilt` assigns
`this.index = data.index` and resolves `this.index`; `rangeProcessed` assigns
`this.index = data.index` and resolves `data.result`; anything else rejects. -/
def handleReply (st : MState) (opId : Nat) (r : WorkerReply) : MState :=
  if opId ∈ st.pending then
    let st1 := { st with pending := st.pending.filter (fun k => k ≠ opId) }
    match r.error with
    | some msg => { st1 with outcomes := (opId, .rejected (.fromWorker msg)) :: st1.outcomes }
    | none =>
      match r.action with
      | .indexBuilt =>
        { st1 with index := r.index,
                   outcomes := (opId, .resolved (.indexDirect r.index)) :: st1.outcomes }
      | .rangeProcessed =>
        { st1 with index := r.index,
                   outcomes := (opId, .resolved (.rangeField r.result)) :: st1.outcomes }
      | .unknown =>
        { st1 with outcomes := (opId, .rejected .unknownAction) :: st1.outcomes }
  else st

/-- `handleWorkerError` (messageindex.js lines 77-84): drop the worker, reject
every pending operation with the channel error, clear the table. -/
def handleWorkerErrorM (st : MState) : MState :=
  { st with worker := false,
            pending := [],
            outcomes := (st.pending.map (fun i => (i, MOutcome.rejected .channelErr)))
              ++ st.outcomes }

/-- The asynchronous events that drive the manager: a worker reply, the
expiry of one dispatched operation's 5000 ms timer (messageindex.js lines
107-112), the worker `onerror` channel failure, and a new dispatch. -/
inductive MEvent where
  | reply (opId : Nat) (r : WorkerReply)
  | timeoutFire (opId : Nat)
  | workerFail
  | send (a : MAction) (d : ReqData)

/-- The manager as an event-step machine. -/
def mStep (st : MState) (ev : MEvent) : MState :=
  match ev with
  | .reply opId r => handleReply st opId r
  | .timeoutFire opId =>
    if opId ∈ st.pending then
      { st with pending := st.pending.filter (fun k => k ≠ opId),
                outcomes := (opId, .rejected .timeoutErr) :: st.outcomes }
    else st
  | .workerFail => handleWorkerErrorM st
  | .send a d => (sendToWorkerM st a d).2

/-- `ensureIndex` then the `processRange` dispatch (messageindex.js lines
133-152) on the sync-fallback path (`this.worker === null`): both
`sendToWorker` calls run `processSynchronously` immediately. -/
def mgrEnsureIndexSync (st : MState) (messages : List Message) : MState :=
  if st.indexPromise then st
  else { (buildIndexSyncM st messages).2 with indexPromise := true }

/-- `MessageIndexManager.processRange` on the sync-fallback path: await
`ensureIndex`, then `processRangeSync`.  Note: `start`/`end` are forwarded
unchanged — no clamping or swapping happens here. -/
def mgrProcessRangeSync (st : MState) (messages : List Message)
    (s e : Int) (unhide : Bool) : RangeSyncRet × MState :=
  processRangeSyncM (mgrEnsureIndexSync st messages) messages s e unhide

/-- The worker's reply to a `buildIndex` request (worker.js lines 109-117):
`data = { index }`. -/
def workerBuildReply (messages : List Message) : WorkerReply :=
  { action := .indexBuilt, error := none,
    index := some (buildMessageIndex messages), result := none, updates := none }

/-- The worker's reply to a `processRange` request (worker.js lines 119-130):
uses `data.index || buildMessageIndex(messages)`, runs the chunked scan, and
posts `data = result = { updates, index }` — there is no `result` field in
the posted `data`. -/
def workerRangeReply (messages : List Message) (s e : Int) (unhide : Bool)
    (dataIndex : Option Index) : WorkerReply :=
  let idx := dataIndex.getD (buildMessageIndex messages)
  let scanned := processMessageRange messages idx s e unhide
  { action := .rangeProcessed, error := none,
    index := some scanned.1, result := none, updates := some scanned.2 }

/-- `ensureIndex` on the worker path, happy case (reply before the timer):
dispatch `buildIndex`, then handle the worker's reply. -/
def wmEnsureIndex (st : MState) (messages : List Message) : MState :=
  if st.indexPromise then st
  else
    let opId := st.opCounter + 1
    let st1 := { st with indexPromise := true, opCounter := opId,
                         pending := opId :: st.pending }
    mStep st1 (.reply opId (workerBuildReply messages))

/-- `processRange` on the worker path, happy case.  The dispatched payload is
`{ messages, start, end, unhide }` (messageindex.js lines 146-151) — it
carries no `index` field, so the worker receives `data.index === undefined`
and rebuilds from `messages`.  The value the caller's promise resolves with
is `data.result`, which the worker never posts, i.e. `none`. -/
def wmProcessRange (st : MState) (messages : List Message)
    (s e : Int) (unhide : Bool) : Option RangeResult × MState :=
  let st1 := wmEnsureIndex st messages
  let opId := st1.opCounter + 1
  let st2 := { st1 with opCounter := opId, pending := opId :: st1.pending }
  let r := workerRangeReply messages s e unhide none
  ((workerRangeReply messages s e unhide none).result, mStep st2 (.reply opId r))

/-- The range normalization performed by the caller `hideChatMessageRange`
(the rewritten index-based variant, lines 158-161):
`start = clamp(start); end = clamp(end); [start, end] = [min, max]`. -/
def normalizeRange (len : Int) (s e : Int) : Int × Int :=
  let s1 := max 0 (min s (len - 1))
  let e1 := max 0 (min e (len - 1))
  (min s1 e1, max s1 e1)

/-- `hideChatMessageRange(start, end, unhide)` on the `useIndexing` path with
the sync-fallback manager: guard the empty chat, normalize the bounds, then
call `messageIndexManager.processRange` (DOM application is external). -/
def hideChatMessageRangeM (st : MState) (messages : List Message)
    (s e : Int) (unhide : Bool) : Option RangeSyncRet × MState :=
  if messages.length = 0 then (none, st)
  else
    let ne := normalizeRange (messages.length : Int) s e
    let (r, st') := mgrProcessRangeSync st messages ne.1 ne.2 unhide
    (some r, st')

/-- `isMessageHidden` (messageindex.js lines 224-226):
`this.index?.hidden.has(id) ?? false`. -/
def isMessageHidden (st : MState) (mid : JsId) : Bool :=
  match st.index with
  | none => false
  | some idx => mid ∈ idx.hidden

/-- `isMessageVisible` (messageindex.js lines 231-233):
`this.index?.visible.has(id) ?? true`. -/
def isMessageVisible (st : MState) (mid : JsId) : Bool :=
  match st.index with
  | none => true
  | some idx => mid ∈ idx.visible

/-- A post-build index mutation, as named by the spec: a direct
`updateMessageState` call or a range-processing scan. -/
inductive IndexOp where
  | upd (mid : JsId) (isHidden : Bool)
  | range (messages : List Message) (s : Int) (e : Int) (unhide : Bool)

/-- Apply one mutation to an index. -/
def applyOp (idx : Index) : IndexOp → Index
  | .upd mid h => updateMessageState idx mid h
  | .range messages s e unhide => (scanList messages unhide (posList s e) (idx, [])).1

/-- Apply a sequence of mutations in order. -/
def applyOps (idx : Index) (ops : List IndexOp) : Index :=
  ops.foldl applyOp idx

/-- The set a range scan selects from: `hidden` when unhiding, `visible` when
hiding. -/
def srcSet (unhide : Bool) (idx : Index) : Finset JsId :=
  if unhide then idx.hidden else idx.visible

theorem scanList_nil (messages : List Message) (unhide : Bool) (st) :
    scanList messages unhide [] st = st := rfl

theorem scanList_cons (messages : List Message) (unhide : Bool) (p ps st) :
    scanList messages unhide (p :: ps) st =
      scanList messages unhide ps (scanStep messages unhide st p) := rfl

/-- The scan body at an out-of-range position is a no-op. -/
theorem scanStep_none (messages : List Message) (unhide : Bool) (st) (i : Int)
    (hg : getMsg messages i = none) : scanStep messages unhide st i = st := by
  unfold scanStep
  rw [hg]

/-- Normal form of the scan body at a present message, in terms of `srcSet`. -/
theorem scanStep_some (messages : List Message) (unhide : Bool) (st) (i : Int)
    (m : Message) (hg : getMsg messages i = some m) :
    scanStep messages unhide st i =
      if derivedId m i ∈ srcSet unhide st.1 then
        (updateMessageState st.1 (derivedId m i) (!unhide),
         jsMapSet st.2 (derivedId m i) ⟨i, !unhide⟩)
      else st := by
  unfold scanStep srcSet
  rw [hg]
  cases unhide <;> simp

theorem srcSet_update_not_mem (unhide : Bool) (idx : Index) (mid : JsId) :
    mid ∉ srcSet unhide (updateMessageState idx mid (!unhide)) := by
  cases unhide <;> simp [updateMessageState, srcSet]

theorem srcSet_update_subset (unhide : Bool) (idx : Index) (mid : JsId) :
    srcSet unhide (updateMessageState idx mid (!unhide)) ⊆ srcSet unhide idx := by
  cases unhide <;> simp [updateMessageState, srcSet] <;> exact Finset.erase_subset _ _

theorem srcSet_scanStep_subset (messages : List Message) (unhide : Bool) (st) (i : Int) :
    srcSet unhide (scanStep messages unhide st i).1 ⊆ srcSet unhide st.1 := by
  cases hg : getMsg messages i with
  | none => rw [scanStep_none messages unhide st i hg]
  | some m =>
    rw [scanStep_some messages unhide st i m hg]
    by_cases h : derivedId m i ∈ srcSet unhide st.1
    · rw [if_pos h]; exact srcSet_update_subset _ _ _
    · rw [if_neg h]

theorem srcSet_scanList_subset (messages : List Message) (unhide : Bool) :
    ∀ (ps : List Int) (st),
      srcSet unhide (scanList messages unhide ps st).1 ⊆ srcSet unhide st.1 := by
  intro ps
  induction ps with
  | nil => intro st; exact Finset.Subset.refl _
  | cons p ps ih =>
    intro st
    rw [scanList_cons]
    exact Finset.Subset.trans (ih _) (srcSet_scanStep_subset _ _ _ _)

/-- After the scan body runs at position `i`, the identifier derived there is
no longer in the selection set. -/
theorem scanStep_processed (messages : List Message) (unhide : Bool) (st) (i : Int)
    (m : Message) (hm : getMsg messages i = some m) :
    derivedId m i ∉ srcSet unhide (scanStep messages unhide st i).1 := by
  rw [scanStep_some messages unhide st i m hm]
  by_cases h : derivedId m i ∈ srcSet unhide st.1
  · rw [if_pos h]; exact srcSet_update_not_mem _ _ _
  · rw [if_neg h]; exact h

/-- After a scan over `ps`, every position of `ps` holding a message has its
derived identifier out of the selection set. -/
theorem scanList_processed (messages : List Message) (unhide : Bool) :
    ∀ (ps : List Int) (st) (i : Int) (m : Message),
      i ∈ ps → getMsg messages i = some m →
      derivedId m i ∉ srcSet unhide (scanList messages unhide ps st).1 := by
  intro ps
  induction ps with
  | nil => intro st i m hi; exact absurd hi (List.not_mem_nil i)
  | cons p ps ih =>
    intro st i m hi hm
    rw [scanList_cons]
    rcases List.mem_cons.1 hi with h | h
    · subst h
      intro hmem
      exact scanStep_processed messages unhide st i m hm
        (srcSet_scanList_subset messages unhide ps _ hmem)
    · exact ih _ i m h hm

/-- A scan over positions whose derived identifiers all avoid the selection
set is a no-op: no updates, no index change. -/
theorem scanList_no_source (messages : List Message) (unhide : Bool) :
    ∀ (ps : List Int) (st),
      (∀ i ∈ ps, ∀ m, getMsg messages i = some m →
        derivedId m i ∉ srcSet unhide st.1) →
      scanList messages unhide ps st = st := by
  intro ps
  induction ps with
  | nil => intro st _; rfl
  | cons p ps ih =>
    intro st h
    have hstep : scanStep messages unhide st p = st := by
      cases hg : getMsg messages p with
      | none => exact scanStep_none messages unhide st p hg
      | some m =>
        rw [scanStep_some messages unhide st p m hg]
        exact if_neg (h p (List.mem_cons_self p ps) m hg)
    rw [scanList_cons, hstep]
    exact ih st (fun i hi m hm => h i (List.mem_cons_of_mem p hi) m hm)

/-- Membership in a JS `Map` after a `set`: the entry was there before or is
the one just set. -/
theorem mem_jsMapSet {β : Type} (l : List (JsId × β)) (k : JsId) (v : β)
    (p : JsId × β) (h : p ∈ jsMapSet l k v) : p ∈ l ∨ p = (k, v) := by
  unfold jsMapSet at h
  by_cases hc : l.any (fun q => q.1 = k)
  · rw [if_pos hc] at h
    obtain ⟨q, hq, hqe⟩ := List.mem_map.1 h
    by_cases hqk : q.1 = k
    · right; rw [if_pos hqk] at hqe; exact hqe.symm
    · left; rw [if_neg hqk] at hqe; exact hqe ▸ hq
  · rw [if_neg hc] at h
    rcases List.mem_append.1 h with h | h
    · exact Or.inl h
    · exact Or.inr (List.mem_singleton.1 h)

/-- Provenance of an entry produced by one scan body execution. -/
theorem scanStep_update_mem (messages : List Message) (unhide : Bool) (st) (i : Int)
    (k : JsId) (v : Update) (h : (k, v) ∈ (scanStep messages unhide st i).2) :
    (k, v) ∈ st.2 ∨ k ∈ srcSet unhide st.1 := by
  cases hg : getMsg messages i with
  | none => rw [scanStep_none messages unhide st i hg] at h; exact Or.inl h
  | some m =>
    rw [scanStep_some messages unhide st i m hg] at h
    by_cases hmem : derivedId m i ∈ srcSet unhide st.1
    · rw [if_pos hmem] at h
      rcases mem_jsMapSet _ _ _ _ h with h' | h'
      · exact Or.inl h'
      · right
        have : k = derivedId m i := congrArg Prod.fst h'
        exact this ▸ hmem
    · rw [if_neg hmem] at h; exact Or.inl h

/-- Provenance of an entry of the `updates` map of a whole scan: it was in the
accumulator already, or its key was in the selection set before the scan. -/
theorem scanList_update_mem (messages : List Message) (unhide : Bool) :
    ∀ (ps : List Int) (st) (k : JsId) (v : Update),
      (k, v) ∈ (scanList messages unhide ps st).2 →
      (k, v) ∈ st.2 ∨ k ∈ srcSet unhide st.1 := by
  intro ps
  induction ps with
  | nil => intro st k v h; exact Or.inl h
  | cons p ps ih =>
    intro st k v h
    rw [scanList_cons] at h
    rcases ih _ k v h with h' | h'
    · rcases scanStep_update_mem messages unhide st p k v h' with h'' | h''
      · exact Or.inl h''
      · exact Or.inr h''
    · exact Or.inr (srcSet_scanStep_subset messages unhide st p h')

theorem updateMessageState_system (idx : Index) (mid : JsId) (b : Bool) :
    (updateMessageState idx mid b).systemMessages = idx.systemMessages := by
  cases b <;> simp [updateMessageState]

theorem scanStep_system (messages : List Message) (unhide : Bool) (st) (i : Int) :
    (scanStep messages unhide st i).1.systemMessages = st.1.systemMessages := by
  cases hg : getMsg messages i with
  | none => rw [scanStep_none messages unhide st i hg]
  | some m =>
    rw [scanStep_some messages unhide st i m hg]
    by_cases h : derivedId m i ∈ srcSet unhide st.1
    · rw [if_pos h]; exact updateMessageState_system _ _ _
    · rw [if_neg h]

theorem scanList_system (messages : List Message) (unhide : Bool) :
    ∀ (ps : List Int) (st),
      (scanList messages unhide ps st).1.systemMessages = st.1.systemMessages := by
  intro ps
  induction ps with
  | nil => intro st; rfl
  | cons p ps ih =>
    intro st
    rw [scanList_cons, ih, scanStep_system]

/-- The derived identifiers of the system-flagged messages, starting at a
given position (the spec's "identifiers tagged system-authored at build
time"). -/
def sysIdsFrom (pos : Nat) : List Message → Finset JsId
  | [] => ∅
  | m :: rest =>
    (if m.is_system then {derivedId m pos} else ∅) ∪ sysIdsFrom (pos + 1) rest

/-- The derived identifiers of the non-system messages. -/
def visIdsFrom (pos : Nat) : List Message → Finset JsId
  | [] => ∅
  | m :: rest =>
    (if m.is_system then ∅ else {derivedId m pos}) ∪ visIdsFrom (pos + 1) rest

/-- All identifiers derived during a build pass. -/
def allIdsFrom (pos : Nat) : List Message → Finset JsId
  | [] => ∅
  | m :: rest => insert (derivedId m pos) (allIdsFrom (pos + 1) rest)

/-- The derived identifiers, in order, as a list (for distinctness talk). -/
def derivedIdList (pos : Nat) : List Message → List JsId
  | [] => []
  | m :: rest => derivedId m pos :: derivedIdList (pos + 1) rest

theorem buildFrom_hidden (messages : List Message) :
    ∀ (idx : Index) (pos : Nat),
      (buildFrom idx pos messages).hidden = idx.hidden ∪ sysIdsFrom pos messages := by
  induction messages with
  | nil => intro idx pos; simp [buildFrom, sysIdsFrom]
  | cons m rest ih =>
    intro idx pos
    rw [buildFrom, ih, sysIdsFrom]
    by_cases h : m.is_system
    · simp [addMessage, h, ← Finset.insert_eq, Finset.union_insert]
    · simp [addMessage, h]

theorem buildFrom_visible (messages : List Message) :
    ∀ (idx : Index) (pos : Nat),
      (buildFrom idx pos messages).visible = idx.visible ∪ visIdsFrom pos messages := by
  induction messages with
  | nil => intro idx pos; simp [buildFrom, visIdsFrom]
  | cons m rest ih =>
    intro idx pos
    rw [buildFrom, ih, visIdsFrom]
    by_cases h : m.is_system
    · simp [addMessage, h]
    · simp [addMessage, h, ← Finset.insert_eq, Finset.union_insert]

theorem buildFrom_system (messages : List Message) :
    ∀ (idx : Index) (pos : Nat),
      (buildFrom idx pos messages).systemMessages =
        idx.systemMessages ∪ sysIdsFrom pos messages := by
  induction messages with
  | nil => intro idx pos; simp [buildFrom, sysIdsFrom]
  | cons m rest ih =>
    intro idx pos
    rw [buildFrom, ih, sysIdsFrom]
    by_cases h : m.is_system
    · simp [addMessage, h, ← Finset.insert_eq, Finset.union_insert]
    · simp [addMessage, h]

theorem buildMessageIndex_hidden (messages : List Message) :
    (buildMessageIndex messages).hidden = sysIdsFrom 0 messages := by
  rw [buildMessageIndex, buildFrom_hidden]
  simp [emptyIndex]

theorem buildMessageIndex_visible (messages : List Message) :
    (buildMessageIndex messages).visible = visIdsFrom 0 messages := by
  rw [buildMessageIndex, buildFrom_visible]
  simp [emptyIndex]

theorem buildMessageIndex_system (messages : List Message) :
    (buildMessageIndex messages).systemMessages = sysIdsFrom 0 messages := by
  rw [buildMessageIndex, buildFrom_system]
  simp [emptyIndex]

theorem sysIds_union_visIds (messages : List Message) :
    ∀ pos, sysIdsFrom pos messages ∪ visIdsFrom pos messages = allIdsFrom pos messages := by
  induction messages with
  | nil => intro pos; simp [sysIdsFrom, visIdsFrom, allIdsFrom]
  | cons m rest ih =>
    intro pos
    rw [sysIdsFrom, visIdsFrom, allIdsFrom, ← ih (pos + 1)]
    by_cases h : m.is_system
    · simp only [if_pos h]
      rw [← Finset.insert_eq, Finset.empty_union, Finset.insert_union]
    · simp only [if_neg h]
      rw [Finset.empty_union, ← Finset.insert_eq, Finset.union_insert]

theorem mem_sysIdsFrom (messages : List Message) :
    ∀ pos x, x ∈ sysIdsFrom pos messages → x ∈ derivedIdList pos messages := by
  induction messages with
  | nil => intro pos x hx; simp [sysIdsFrom] at hx
  | cons m rest ih =>
    intro pos x hx
    rw [sysIdsFrom] at hx
    rcases Finset.mem_union.1 hx with h | h
    · by_cases hs : m.is_system
      · rw [if_pos hs] at h
        rw [derivedIdList]
        exact List.mem_cons.2 (Or.inl (Finset.mem_singleton.1 h))
      · rw [if_neg hs] at h; simp at h
    · exact List.mem_cons.2 (Or.inr (ih (pos + 1) x h))

theorem mem_visIdsFrom (messages : List Message) :
    ∀ pos x, x ∈ visIdsFrom pos messages → x ∈ derivedIdList pos messages := by
  induction messages with
  | nil => intro pos x hx; simp [visIdsFrom] at hx
  | cons m rest ih =>
    intro pos x hx
    rw [visIdsFrom] at hx
    rcases Finset.mem_union.1 hx with h | h
    · by_cases hs : m.is_system
      · rw [if_pos hs] at h; simp at h
      · rw [if_neg hs] at h
        rw [derivedIdList]
        exact List.mem_cons.2 (Or.inl (Finset.mem_singleton.1 h))
    · exact List.mem_cons.2 (Or.inr (ih (pos + 1) x h))

/-- Pairwise-distinct derived identifiers make the build partition disjoint. -/
theorem sysIds_inter_visIds (messages : List Message) :
    ∀ pos, (derivedIdList pos messages).Nodup →
      sysIdsFrom pos messages ∩ visIdsFrom pos messages = ∅ := by
  induction messages with
  | nil => intro pos _; simp [sysIdsFrom, visIdsFrom]
  | cons m rest ih =>
    intro pos hnd
    rw [derivedIdList, List.nodup_cons] at hnd
    obtain ⟨hhead, htail⟩ := hnd
    rw [Finset.eq_empty_iff_forall_not_mem]
    intro x hx
    rw [sysIdsFrom, visIdsFrom] at hx
    obtain ⟨hxs, hxv⟩ := Finset.mem_inter.1 hx
    rcases Finset.mem_union.1 hxs with h1 | h1 <;>
      rcases Finset.mem_union.1 hxv with h2 | h2
    · by_cases hs : m.is_system
      · rw [if_pos hs] at h2; simp at h2
      · rw [if_neg hs] at h1; simp at h1
    · by_cases hs : m.is_system
      · rw [if_pos hs] at h1
        have hx1 : x = derivedId m pos := Finset.mem_singleton.1 h1
        exact hhead (hx1 ▸ mem_visIdsFrom rest (pos + 1) x h2)
      · rw [if_neg hs] at h1; simp at h1
    · by_cases hs : m.is_system
      · rw [if_pos hs] at h2; simp at h2
      · rw [if_neg hs] at h2
        have hx2 : x = derivedId m pos := Finset.mem_singleton.1 h2
        exact hhead (hx2 ▸ mem_sysIdsFrom rest (pos + 1) x h1)
    · have := ih (pos + 1) htail
      rw [Finset.eq_empty_iff_forall_not_mem] at this
      exact this x (Finset.mem_inter.2 ⟨h1, h2⟩)

/-- The spec's partition invariant relative to a universe `U` of identifiers:
`hidden ∩ visible = ∅` and `hidden ∪ visible = U`. -/
def IndexInv (idx : Index) (U : Finset JsId) : Prop :=
  idx.hidden ∩ idx.visible = ∅ ∧ idx.hidden ∪ idx.visible = U

theorem updateMessageState_true (idx : Index) (mid : JsId) :
    updateMessageState idx mid true =
      { idx with visible := idx.visible.erase mid, hidden := insert mid idx.hidden } := rfl

theorem updateMessageState_false (idx : Index) (mid : JsId) :
    updateMessageState idx mid false =
      { idx with hidden := idx.hidden.erase mid, visible := insert mid idx.visible } := rfl

theorem IndexInv_updateMessageState (idx : Index) (U : Finset JsId) (mid : JsId)
    (b : Bool) (h : IndexInv idx U) (hm : mid ∈ U) :
    IndexInv (updateMessageState idx mid b) U := by
  obtain ⟨hd, hu⟩ := h
  rw [Finset.eq_empty_iff_forall_not_mem] at hd
  have hd' : ∀ x, x ∈ idx.hidden → x ∈ idx.visible → False := by
    intro x h1 h2
    exact hd x (Finset.mem_inter.2 ⟨h1, h2⟩)
  have hu' : ∀ x, x ∈ U ↔ x ∈ idx.hidden ∨ x ∈ idx.visible := by
    intro x
    rw [← hu, Finset.mem_union]
  constructor
  · rw [Finset.eq_empty_iff_forall_not_mem]
    intro x hx
    obtain ⟨h1, h2⟩ := Finset.mem_inter.1 hx
    cases b with
    | true =>
      rw [updateMessageState_true] at h1 h2
      rcases Finset.mem_insert.1 h1 with h1' | h1'
      · exact (Finset.mem_erase.1 h2).1 h1'
      · exact hd' x h1' (Finset.mem_erase.1 h2).2
    | false =>
      rw [updateMessageState_false] at h1 h2
      rcases Finset.mem_insert.1 h2 with h2' | h2'
      · exact (Finset.mem_erase.1 h1).1 h2'
      · exact hd' x (Finset.mem_erase.1 h1).2 h2'
  · apply Finset.ext
    intro x
    rw [Finset.mem_union]
    cases b with
    | true =>
      rw [updateMessageState_true]
      simp only [Finset.mem_insert, Finset.mem_erase]
      constructor
      · rintro ((rfl | h1) | ⟨hne, h2⟩)
        · exact hm
        · exact (hu' x).2 (Or.inl h1)
        · exact (hu' x).2 (Or.inr h2)
      · intro hx
        by_cases hxe : x = mid
        · exact Or.inl (Or.inl hxe)
        · rcases (hu' x).1 hx with h1 | h2
          · exact Or.inl (Or.inr h1)
          · exact Or.inr ⟨hxe, h2⟩
    | false =>
      rw [updateMessageState_false]
      simp only [Finset.mem_insert, Finset.mem_erase]
      constructor
      · rintro (⟨hne, h1⟩ | (rfl | h2))
        · exact (hu' x).2 (Or.inl h1)
        · exact hm
        · exact (hu' x).2 (Or.inr h2)
      · intro hx
        by_cases hxe : x = mid
        · exact Or.inr (Or.inl hxe)
        · rcases (hu' x).1 hx with h1 | h2
          · exact Or.inl ⟨hxe, h1⟩
          · exact Or.inr (Or.inr h2)

theorem srcSet_subset_union (unhide : Bool) (idx : Index) :
    srcSet unhide idx ⊆ idx.hidden ∪ idx.visible := by
  cases unhide with
  | true => exact Finset.subset_union_left
  | false => exact Finset.subset_union_right

theorem IndexInv_scanStep (messages : List Message) (unhide : Bool)
    (st : Index × List (JsId × Update)) (i : Int) (U : Finset JsId)
    (h : IndexInv st.1 U) : IndexInv (scanStep messages unhide st i).1 U := by
  cases hg : getMsg messages i with
  | none => rw [scanStep_none messages unhide st i hg]; exact h
  | some m =>
    rw [scanStep_some messages unhide st i m hg]
    by_cases hmem : derivedId m i ∈ srcSet unhide st.1
    · rw [if_pos hmem]
      have : derivedId m i ∈ U := by
        rw [← h.2]
        exact srcSet_subset_union unhide st.1 hmem
      exact IndexInv_updateMessageState st.1 U (derivedId m i) (!unhide) h this
    · rw [if_neg hmem]; exact h

theorem IndexInv_scanList (messages : List Message) (unhide : Bool) :
    ∀ (ps : List Int) (st) (U : Finset JsId),
      IndexInv st.1 U → IndexInv (scanList messages unhide ps st).1 U := by
  intro ps
  induction ps with
  | nil => intro st U h; exact h
  | cons p ps ih =>
    intro st U h
    rw [scanList_cons]
    exact ih _ U (IndexInv_scanStep messages unhide st p U h)

theorem applyOps_system (ops : List IndexOp) :
    ∀ idx : Index, (applyOps idx ops).systemMessages = idx.systemMessages := by
  induction ops with
  | nil => intro idx; rfl
  | cons op ops ih =>
    intro idx
    have hstep : (applyOp idx op).systemMessages = idx.systemMessages := by
      cases op with
      | upd mid b => exact updateMessageState_system idx mid b
      | range messages s e unhide => exact scanList_system messages unhide _ _
    calc (applyOps idx (op :: ops)).systemMessages
        = (applyOps (applyOp idx op) ops).systemMessages := rfl
      _ = (applyOp idx op).systemMessages := ih _
      _ = idx.systemMessages := hstep

theorem mgrEnsureIndexSync_indexPromise (st : MState) (messages : List Message) :
    (mgrEnsureIndexSync st messages).indexPromise = true := by
  unfold mgrEnsureIndexSync
  split
  · assumption
  · rfl

theorem mgrEnsureIndexSync_of_promise (st : MState) (messages : List Message)
    (h : st.indexPromise = true) : mgrEnsureIndexSync st messages = st := by
  unfold mgrEnsureIndexSync
  rw [if_pos h]

theorem processRangeSyncM_unfold (st : MState) (messages : List Message)
    (s e : Int) (unhide : Bool) :
    processRangeSyncM st messages s e unhide =
      ((⟨⟨(scanList messages unhide (posList s e)
            (st.index.getD (buildMessageIndex messages), [])).2⟩,
         (scanList messages unhide (posList s e)
            (st.index.getD (buildMessageIndex messages), [])).1⟩ : RangeSyncRet),
       { st with index := some (scanList messages unhide (posList s e)
            (st.index.getD (buildMessageIndex messages), [])).1 }) := rfl

/-- Example: a single system-flagged message (no `id` field). -/
def egSys1 : List Message := [{ is_system := true }]

/-- Example: two messages sharing the derived identifier `5` with opposite
`is_system` flags. -/
def egDup : List Message :=
  [{ id := some (JsId.num 5), is_system := true },
   { id := some (JsId.num 5), is_system := false }]

/-- Example: three system-flagged messages. -/
def egSys3 : List Message :=
  [{ is_system := true }, { is_system := true }, { is_system := true }]

/-- Example: a message with no `id` followed by one whose `id` is the falsy
number `0`. -/
def egId0 : List Message := [{}, { id := some (JsId.num 0) }]

/-- Claim C1 (counterexample): under the background (worker) strategy, after
one completed `processRange(messages, 0, 0, unhide)` over a single hidden
message, the second identical call does NOT resolve with an empty updates
map: it resolves with `undefined` (the manager resolves `data.result`, a
field the worker never posts), and the worker recomputes the same non-empty
updates map because the dispatched payload carries no index, so the worker
rebuilds its index from `messages` on every request. -/
theorem hidez_c1_counterexample :
    (wmProcessRange (wmProcessRange initialWorkerState egSys1 0 0 true).2
        egSys1 0 0 true).1 = none ∧
    (workerRangeReply egSys1 0 0 true none).updates =
      some [(JsId.num 0, ⟨0, false⟩)] := by
  constructor
  · rfl
  · decide

/-- Claim C1 (amended): under the local synchronous strategy (worker absent),
after one call to the manager's `processRange` completes, a second call with
the same messages, bounds and polarity resolves with a result whose `updates`
map is empty — for every starting manager state. -/
theorem hidez_c1_amended (st : MState) (messages : List Message)
    (s e : Int) (unhide : Bool) :
    ((mgrProcessRangeSync (mgrProcessRangeSync st messages s e unhide).2
        messages s e unhide).1).result.updates = [] := by
  unfold mgrProcessRangeSync
  rw [processRangeSyncM_unfold (mgrEnsureIndexSync st messages)]
  have hens : mgrEnsureIndexSync
      { mgrEnsureIndexSync st messages with
          index := some (scanList messages unhide (posList s e)
            ((mgrEnsureIndexSync st messages).index.getD (buildMessageIndex messages),
              [])).1 } messages =
      { mgrEnsureIndexSync st messages with
          index := some (scanList messages unhide (posList s e)
            ((mgrEnsureIndexSync st messages).index.getD (buildMessageIndex messages),
              [])).1 } :=
    mgrEnsureIndexSync_of_promise _ messages
      (mgrEnsureIndexSync_indexPromise st messages)
  rw [hens, processRangeSyncM_unfold]
  have hnosrc : scanList messages unhide (posList s e)
      ((scanList messages unhide (posList s e)
        ((mgrEnsureIndexSync st messages).index.getD (buildMessageIndex messages),
          [])).1, []) =
      ((scanList messages unhide (posList s e)
        ((mgrEnsureIndexSync st messages).index.getD (buildMessageIndex messages),
          [])).1, []) :=
    scanList_no_source messages unhide (posList s e) _
      (fun i hi m hm =>
        scanList_processed messages unhide (posList s e) _ i m hi hm)
  simp only [Option.getD_some, hnosrc]

/-- Claim C2 (code bug, evaluated at the failing input): on the same request
(`processRange(egSys1, 0, 0, unhide=true)` after a build), the local
synchronous strategy resolves with the `{ result: { updates }, index }`
object carrying a non-empty updates map, while the background strategy
resolves with `undefined` (`none`): the manager resolves `data.result`, but
the worker posts the result's fields directly as `data`, so no strategy
equivalence holds.  A second identical call diverges further: the sync
strategy yields empty updates while the worker path again resolves
`undefined` and internally recomputes the first call's updates from a fresh
index, since the dispatched payload never carries the stored index. -/
theorem hidez_c2_bug_eval :
    (mgrProcessRangeSync initialSyncState egSys1 0 0 true).1.result.updates =
      [(JsId.num 0, ⟨0, false⟩)] ∧
    (wmProcessRange initialWorkerState egSys1 0 0 true).1 = none ∧
    (mgrProcessRangeSync
      (mgrProcessRangeSync initialSyncState egSys1 0 0 true).2
        egSys1 0 0 true).1.result.updates = [] := by
  refine ⟨by decide, rfl, by decide⟩

/-- Claim C3 (counterexample): building over two messages that derive the same
identifier `5` with opposite `is_system` flags yields an index with
`hidden ∩ visible = {5} ≠ ∅` — the partition invariant fails as stated. -/
theorem hidez_c3_counterexample :
    (buildMessageIndex egDup).hidden ∩ (buildMessageIndex egDup).visible ≠ ∅ := by
  decide

/-- Claim C3 (amended): provided the identifiers derived during the build are
pairwise distinct, the built index satisfies `hidden ∩ visible = ∅`;
unconditionally `hidden ∪ visible` equals the set of all identifiers derived
during the build; a range-processing scan preserves any such partition
invariant, and `updateMessageState` preserves it for any identifier already
in `hidden ∪ visible`. -/
theorem hidez_c3_amended :
    (∀ messages : List Message, (derivedIdList 0 messages).Nodup →
      (buildMessageIndex messages).hidden ∩ (buildMessageIndex messages).visible = ∅) ∧
    (∀ messages : List Message,
      (buildMessageIndex messages).hidden ∪ (buildMessageIndex messages).visible =
        allIdsFrom 0 messages) ∧
    (∀ (messages : List Message) (unhide : Bool) (s e : Int) (idx : Index)
        (U : Finset JsId) (ups : List (JsId × Update)), IndexInv idx U →
      IndexInv (scanList messages unhide (posList s e) (idx, ups)).1 U) ∧
    (∀ (idx : Index) (U : Finset JsId) (mid : JsId) (b : Bool), IndexInv idx U →
      mid ∈ U → IndexInv (updateMessageState idx mid b) U) := by
  refine ⟨?_, ?_, ?_, ?_⟩
  · intro messages hnd
    rw [buildMessageIndex_hidden, buildMessageIndex_visible]
    exact sysIds_inter_visIds messages 0 hnd
  · intro messages
    rw [buildMessageIndex_hidden, buildMessageIndex_visible]
    exact sysIds_union_visIds messages 0
  · intro messages unhide s e idx U ups h
    exact IndexInv_scanList messages unhide (posList s e) (idx, ups) U h
  · intro idx U mid b h hm
    exact IndexInv_updateMessageState idx U mid b h hm

/-- Witness for the amended C3 at a concrete build with distinct derived
identifiers. -/
theorem hidez_c3_witness :
    (buildMessageIndex egSys3).hidden ∩ (buildMessageIndex egSys3).visible = ∅ :=
  hidez_c3_amended.1 egSys3 (by decide)

/-- Claim C4 (counterexample): the identifier is derived with JS `||`, not
`??`.  The message `{id: 0}` at position 1 has an `id` field present, yet
`0 || 1` evaluates to `1`, so it is indexed under its position `1`, not under
its id `0` — refuting "a message whose id is present (including id 0 or an
empty string) keeps that id". -/
theorem hidez_c4_counterexample :
    derivedId { id := some (JsId.num 0), is_system := false } 1 = JsId.num 1 ∧
    (buildMessageIndex egId0).messagePositions =
      [(JsId.num 0, 0), (JsId.num 1, 1)] := by
  decide

theorem get_mem_sysIdsFrom (messages : List Message) :
    ∀ (pos p : Nat) (h : p < messages.length),
      (messages.get ⟨p, h⟩).is_system = true →
      derivedId (messages.get ⟨p, h⟩) ((pos + p : Nat) : Int) ∈ sysIdsFrom pos messages := by
  induction messages with
  | nil => intro pos p h; exact absurd h (Nat.not_lt_zero p)
  | cons m rest ih =>
    intro pos p h hs
    cases p with
    | zero =>
      have hget : (m :: rest).get ⟨0, h⟩ = m := rfl
      rw [hget] at hs ⊢
      rw [sysIdsFrom]
      apply Finset.mem_union_left
      rw [if_pos hs]
      simp
    | succ p =>
      have hget : (m :: rest).get ⟨p + 1, h⟩ =
        rest.get ⟨p, Nat.lt_of_succ_lt_succ h⟩ := rfl
      rw [hget] at hs ⊢
      rw [sysIdsFrom]
      apply Finset.mem_union_right
      have := ih (pos + 1) p (Nat.lt_of_succ_lt_succ h) hs
      have harith : pos + 1 + p = pos + (p + 1) := by omega
      rw [harith] at this
      exact this

theorem get_mem_visIdsFrom (messages : List Message) :
    ∀ (pos p : Nat) (h : p < messages.length),
      (messages.get ⟨p, h⟩).is_system = false →
      derivedId (messages.get ⟨p, h⟩) ((pos + p : Nat) : Int) ∈ visIdsFrom pos messages := by
  induction messages with
  | nil => intro pos p h; exact absurd h (Nat.not_lt_zero p)
  | cons m rest ih =>
    intro pos p h hs
    cases p with
    | zero =>
      have hget : (m :: rest).get ⟨0, h⟩ = m := rfl
      rw [hget] at hs ⊢
      rw [visIdsFrom]
      apply Finset.mem_union_left
      rw [if_neg (by simp [hs])]
      simp
    | succ p =>
      have hget : (m :: rest).get ⟨p + 1, h⟩ =
        rest.get ⟨p, Nat.lt_of_succ_lt_succ h⟩ := rfl
      rw [hget] at hs ⊢
      rw [visIdsFrom]
      apply Finset.mem_union_right
      have := ih (pos + 1) p (Nat.lt_of_succ_lt_succ h) hs
      have harith : pos + 1 + p = pos + (p + 1) := by omega
      rw [harith] at this
      exact this

/-- Claim C4 (amended): `messageId = message.id || position` — the identifier
defaults to the position exactly when the `id` field is absent or falsy
(the number 0, the empty string); a present truthy id is kept.  Under that
derivation, the message at position `p` is recorded in `hidden` and
`systemMessages` when system-flagged, and in `visible` otherwise. -/
theorem hidez_c4_amended :
    (∀ (m : Message) (pos : Int), m.id = none → derivedId m pos = JsId.num pos) ∧
    (∀ (m : Message) (pos : Int) (v : JsId), m.id = some v → truthyId v = true →
      derivedId m pos = v) ∧
    (∀ (m : Message) (pos : Int) (v : JsId), m.id = some v → truthyId v = false →
      derivedId m pos = JsId.num pos) ∧
    (∀ (messages : List Message) (p : Nat) (h : p < messages.length),
      ((messages.get ⟨p, h⟩).is_system = true →
        derivedId (messages.get ⟨p, h⟩) (p : Int) ∈ (buildMessageIndex messages).hidden ∧
        derivedId (messages.get ⟨p, h⟩) (p : Int) ∈
          (buildMessageIndex messages).systemMessages) ∧
      ((messages.get ⟨p, h⟩).is_system = false →
        derivedId (messages.get ⟨p, h⟩) (p : Int) ∈ (buildMessageIndex messages).visible)) := by
  refine ⟨?_, ?_, ?_, ?_⟩
  · intro m pos hm; unfold derivedId; rw [hm]
  · intro m pos v hm hv; unfold derivedId; rw [hm]; simp [hv]
  · intro m pos v hm hv; unfold derivedId; rw [hm]; simp [hv]
  · intro messages p h
    constructor
    · intro hs
      have hmem := get_mem_sysIdsFrom messages 0 p h hs
      rw [Nat.zero_add] at hmem
      exact ⟨by rw [buildMessageIndex_hidden]; exact hmem,
             by rw [buildMessageIndex_system]; exact hmem⟩
    · intro hs
      have hmem := get_mem_visIdsFrom messages 0 p h hs
      rw [Nat.zero_add] at hmem
      rw [buildMessageIndex_visible]
      exact hmem

/-- Witness for the amended C4 at concrete inputs. -/
theorem hidez_c4_witness :
    derivedId { id := some (JsId.num 7), is_system := true } 3 = JsId.num 7 ∧
    derivedId (egSys3.get ⟨1, by decide⟩) ((1 : Nat) : Int) ∈
      (buildMessageIndex egSys3).hidden := by
  constructor
  · exact hidez_c4_amended.2.1 _ 3 (JsId.num 7) rfl (by decide)
  · exact ((hidez_c4_amended.2.2.2 egSys3 1 (by decide)).1 (by decide)).1

/-- Claim C5 (counterexample): over the duplicate-identifier build (id `5`
present in both `hidden` and `visible`), `processRange` with `unhide = true`
(requested target: visible) includes identifier `5` in its updates map even
though `5` is already in `visible` — a position already in the target state
is included. -/
theorem hidez_c5_counterexample :
    JsId.num 5 ∈ (buildMessageIndex egDup).visible ∧
    (JsId.num 5, (⟨0, false⟩ : Update)) ∈
      (processRangeSyncM
        { initialSyncState with index := some (buildMessageIndex egDup) }
        egDup 0 1 true).1.result.updates := by
  decide

/-- Claim C5 (amended): every entry of the `updates` map returned by
`processRangeSync` has a key that was in the selection set of the pre-call
index (`hidden` when `unhide`, `visible` otherwise) — identifiers in neither
set are never included; and provided the pre-call index has
`hidden ∩ visible = ∅`, no entry's key was already in the target set. -/
theorem hidez_c5_amended (st : MState) (messages : List Message) (s e : Int)
    (unhide : Bool) (k : JsId) (v : Update) (idx0 : Index)
    (hidx : idx0 = st.index.getD (buildMessageIndex messages))
    (hmem : (k, v) ∈ (processRangeSyncM st messages s e unhide).1.result.updates) :
    (unhide = true → k ∈ idx0.hidden) ∧
    (unhide = false → k ∈ idx0.visible) ∧
    (idx0.hidden ∩ idx0.visible = ∅ →
      (unhide = true → k ∉ idx0.visible) ∧ (unhide = false → k ∉ idx0.hidden)) := by
  rw [processRangeSyncM_unfold] at hmem
  rw [← hidx] at hmem
  have hsrc := scanList_update_mem messages unhide (posList s e) (idx0, []) k v hmem
  rcases hsrc with h | h
  · exact absurd h (List.not_mem_nil _)
  · have hh : unhide = true → k ∈ idx0.hidden := by
      intro hu; rw [hu] at h; exact h
    have hv : unhide = false → k ∈ idx0.visible := by
      intro hu; rw [hu] at h; exact h
    refine ⟨hh, hv, ?_⟩
    intro hdis
    rw [Finset.eq_empty_iff_forall_not_mem] at hdis
    constructor
    · intro hu hkv
      exact hdis k (Finset.mem_inter.2 ⟨hh hu, hkv⟩)
    · intro hu hkh
      exact hdis k (Finset.mem_inter.2 ⟨hkh, hv hu⟩)

/-- Witness for the amended C5 at a concrete scan that produces an update. -/
theorem hidez_c5_witness : JsId.num 0 ∈ (buildMessageIndex egSys1).hidden := by
  have h := hidez_c5_amended initialSyncState egSys1 0 0 true (JsId.num 0)
    ⟨0, false⟩ (buildMessageIndex egSys1) (by decide) (by decide)
  exact h.1 rfl

/-- Claim C6 (counterexample): the Manager's `processRange` does not swap
reversed bounds.  Over three hidden messages, calling it with
`start = 2, end = 0` scans nothing and yields no updates, while the swapped
bounds `(0, 2)` yield three — so no clamp-and-swap happens inside
`processRange`; the normalization lives in the caller. -/
theorem hidez_c6_counterexample :
    (mgrProcessRangeSync initialSyncState egSys3 2 0 true).1.result.updates = [] ∧
    (mgrProcessRangeSync initialSyncState egSys3 0 2 true).1.result.updates ≠ [] := by
  decide

/-- Claim C6 (amended): the clamp-into-bounds and swap normalization is
performed by the caller `hideChatMessageRange` before it invokes the
Manager's `processRange`, which receives the bounds unchanged: the
normalized pair always satisfies `0 ≤ start ≤ end ≤ length - 1`, and
`hideChatMessageRange` on a non-empty chat equals `processRange` applied to
the normalized bounds. -/
theorem hidez_c6_amended :
    (∀ len s e : Int, 0 < len →
      0 ≤ (normalizeRange len s e).1 ∧
      (normalizeRange len s e).1 ≤ (normalizeRange len s e).2 ∧
      (normalizeRange len s e).2 ≤ len - 1) ∧
    (∀ (st : MState) (messages : List Message) (s e : Int) (unhide : Bool),
      messages.length ≠ 0 →
      hideChatMessageRangeM st messages s e unhide =
        (some (mgrProcessRangeSync st messages
            (normalizeRange (messages.length : Int) s e).1
            (normalizeRange (messages.length : Int) s e).2 unhide).1,
         (mgrProcessRangeSync st messages
            (normalizeRange (messages.length : Int) s e).1
            (normalizeRange (messages.length : Int) s e).2 unhide).2)) := by
  constructor
  · intro len s e hlen
    unfold normalizeRange
    refine ⟨?_, ?_, ?_⟩ <;> simp only [] <;> omega
  · intro st messages s e unhide h
    unfold hideChatMessageRangeM
    rw [if_neg h]

/-- Witness for the amended C6 at out-of-range, reversed bounds. -/
theorem hidez_c6_witness :
    0 ≤ (normalizeRange 3 5 (-7)).1 ∧
    (normalizeRange 3 5 (-7)).1 ≤ (normalizeRange 3 5 (-7)).2 ∧
    (normalizeRange 3 5 (-7)).2 ≤ 3 - 1 :=
  hidez_c6_amended.1 3 5 (-7) (by decide)

/-- Claim C7 (counterexample): with an index built (from one hidden message),
the identifier `1` is unknown — in neither `hidden` nor `visible` — yet
`isMessageVisible` returns `false`, not `true` as the claim states: the
`?? true` default applies only when no index exists at all. -/
theorem hidez_c7_counterexample :
    JsId.num 1 ∉ (buildMessageIndex egSys1).hidden ∧
    isMessageVisible
      { initialSyncState with index := some (buildMessageIndex egSys1) }
      (JsId.num 1) = false := by
  decide

/-- Claim C7 (amended): `isMessageHidden` returns `false` when no index is
built or the id is not in `hidden`; `isMessageVisible` returns `true` when no
index is built, and otherwise returns exactly membership in `visible` (so
`false` for an identifier the index does not track).  Both are pure reads of
the snapshot and never build. -/
theorem hidez_c7_amended (st : MState) (mid : JsId) :
    (st.index = none →
      isMessageHidden st mid = false ∧ isMessageVisible st mid = true) ∧
    (∀ idx : Index, st.index = some idx →
      ((isMessageHidden st mid = true) ↔ mid ∈ idx.hidden) ∧
      ((isMessageVisible st mid = true) ↔ mid ∈ idx.visible) ∧
      (mid ∉ idx.hidden → isMessageHidden st mid = false)) := by
  constructor
  · intro h
    unfold isMessageHidden isMessageVisible
    rw [h]
    exact ⟨rfl, rfl⟩
  · intro idx h
    unfold isMessageHidden isMessageVisible
    rw [h]
    simp

/-- Witness for the amended C7 before any build. -/
theorem hidez_c7_witness :
    isMessageHidden initialWorkerState (JsId.num 3) = false ∧
    isMessageVisible initialWorkerState (JsId.num 3) = true :=
  (hidez_c7_amended initialWorkerState (JsId.num 3)).1 rfl

theorem mStep_timeout_pos (st : MState) (opId : Nat) (h : opId ∈ st.pending) :
    mStep st (.timeoutFire opId) =
      { st with pending := st.pending.filter (fun k => k ≠ opId),
                outcomes := (opId, .rejected .timeoutErr) :: st.outcomes } := by
  simp only [mStep]
  rw [if_pos h]

theorem handleReply_not_pending (st : MState) (opId : Nat) (r : WorkerReply)
    (h : opId ∉ st.pending) : handleReply st opId r = st := by
  unfold handleReply
  rw [if_neg h]

/-- Claim C8: expiry of a pending operation's timer removes its pending-table
entry and rejects its promise with the timeout error (and touches nothing
else); a reply bearing an operation id that is not pending — in particular
one arriving after the timeout fired — leaves the manager state completely
unchanged: nothing is resolved, rejected or mutated. -/
theorem hidez_c8 :
    (∀ (st : MState) (opId : Nat), opId ∈ st.pending →
      opId ∉ (mStep st (.timeoutFire opId)).pending ∧
      (mStep st (.timeoutFire opId)).outcomes =
        (opId, .rejected .timeoutErr) :: st.outcomes ∧
      (mStep st (.timeoutFire opId)).index = st.index ∧
      (mStep st (.timeoutFire opId)).worker = st.worker) ∧
    (∀ (st : MState) (opId : Nat) (r : WorkerReply), opId ∉ st.pending →
      mStep st (.reply opId r) = st) ∧
    (∀ (st : MState) (opId : Nat) (r : WorkerReply), opId ∈ st.pending →
      mStep (mStep st (.timeoutFire opId)) (.reply opId r) =
        mStep st (.timeoutFire opId)) := by
  have hdrop : ∀ (st : MState) (opId : Nat) (r : WorkerReply), opId ∉ st.pending →
      mStep st (.reply opId r) = st := by
    intro st opId r h
    simp only [mStep]
    exact handleReply_not_pending st opId r h
  have hnot : ∀ (st : MState) (opId : Nat), opId ∈ st.pending →
      opId ∉ (mStep st (.timeoutFire opId)).pending := by
    intro st opId h
    rw [mStep_timeout_pos st opId h]
    simp
  refine ⟨?_, hdrop, ?_⟩
  · intro st opId h
    refine ⟨hnot st opId h, ?_, ?_, ?_⟩ <;> rw [mStep_timeout_pos st opId h]
  · intro st opId r h
    exact hdrop _ opId r (hnot st opId h)

/-- Witness for C8: a reply with an unknown operation id is dropped. -/
theorem hidez_c8_witness :
    mStep initialWorkerState (.reply 1 (workerBuildReply egSys1)) =
      initialWorkerState :=
  hidez_c8.2.1 initialWorkerState 1 (workerBuildReply egSys1) (by decide)

theorem handleReply_worker (st : MState) (opId : Nat) (r : WorkerReply) :
    (handleReply st opId r).worker = st.worker := by
  unfold handleReply
  by_cases h : opId ∈ st.pending
  · rw [if_pos h]
    cases r.error with
    | some msg => rfl
    | none => cases r.action <;> rfl
  · rw [if_neg h]

theorem processSynchronouslyM_worker (st : MState) (a : MAction) (d : ReqData) :
    (processSynchronouslyM st a d).2.worker = st.worker := by
  cases a <;> rfl

/-- Claim C9: a channel-level worker error drops the worker, immediately
rejects every pending operation with that error and empties the pending
table; once `worker = null`, no manager event ever restores it (only the
constructor initializes a worker), and every subsequent dispatch runs the
local synchronous strategy. -/
theorem hidez_c9 :
    (∀ st : MState,
      (mStep st .workerFail).worker = false ∧
      (mStep st .workerFail).pending = [] ∧
      (mStep st .workerFail).outcomes =
        (st.pending.map (fun i => (i, MOutcome.rejected .channelErr))) ++ st.outcomes) ∧
    (∀ (st : MState) (ev : MEvent), st.worker = false → (mStep st ev).worker = false) ∧
    (∀ (st : MState) (a : MAction) (d : ReqData), st.worker = false →
      sendToWorkerM st a d =
        (some (processSynchronouslyM st a d).1, (processSynchronouslyM st a d).2)) := by
  refine ⟨fun st => ⟨rfl, rfl, rfl⟩, ?_, ?_⟩
  · intro st ev h
    cases ev with
    | reply opId r => rw [show mStep st (.reply opId r) = handleReply st opId r from rfl,
        handleReply_worker]; exact h
    | timeoutFire opId =>
      simp only [mStep]
      split
      · exact h
      · exact h
    | workerFail => rfl
    | send a d =>
      show (sendToWorkerM st a d).2.worker = false
      unfold sendToWorkerM
      rw [if_neg (by simp [h])]
      rw [processSynchronouslyM_worker]
      exact h
  · intro st a d h
    unfold sendToWorkerM
    rw [if_neg (by simp [h])]

/-- Witness for C9: a dispatch with no worker runs synchronously. -/
theorem hidez_c9_witness :
    (mStep initialSyncState (.send .buildIndex { messages := egSys1 })).worker = false :=
  hidez_c9.2.1 initialSyncState (.send .buildIndex { messages := egSys1 }) rfl

/-- Claim C10: no post-build mutation — neither `updateMessageState` nor any
range-processing scan, nor any sequence of them — changes `systemMessages`;
it remains exactly the set of identifiers that were system-flagged at build
time (only a full rebuild produces a new set). -/
theorem hidez_c10 :
    (∀ (idx : Index) (ops : List IndexOp),
      (applyOps idx ops).systemMessages = idx.systemMessages) ∧
    (∀ messages : List Message,
      (buildMessageIndex messages).systemMessages = sysIdsFrom 0 messages) :=
  ⟨fun idx ops => applyOps_system ops idx, buildMessageIndex_system⟩
